import Mathlib

/-!
Verification of the knowledge-base management and retrieval-aggregation core
of the text/voice chatbot repository.  The Python source is shallowly embedded:
pure helpers become Lean functions on `List Char` / `String`, machine floats
become exact rationals, Python dictionaries become association lists or
`String → Option _` maps, and exceptions become `Option`/`Except` results.
Each embedded definition is named after (and translated line by line from) the
Python function it models:

  * `pdf_processor.py`   — `PDFProcessor._create_valid_collection_name`,
    `PDFProcessor.search_multiple_pdfs`, `PDFProcessor.search_pdf`
  * `knowledge_base_manager.py` — `KnowledgeBaseManager` index lifecycle,
    `search_all_documents`, `search_single_document`,
    `_calculate_text_similarity`, `calculate_search_metrics`,
    evaluation persistence and history
  * `knowledge_base_app_tabs.py` — the Tab-3 eligibility-check loop.
-/

/-! ## Python string primitives

The embedding works on `List Char`.  `pyLower`, `pyStrip`, `pySplit`,
`os.path.basename`, `os.path.splitext` model the CPython behaviour on the
ASCII strings this program manipulates. -/

/-- Python `str.lower()` (ASCII range, which covers all strings compared here). -/
def pyLowerL (s : List Char) : List Char := s.map Char.toLower

/-- Python whitespace for `str.strip()` / `str.split()`. -/
def pyIsSpace (c : Char) : Bool := c = ' ' ∨ c = '\t' ∨ c = '\n' ∨ c = '\r'

/-- Python `str.strip()` with no argument: trim whitespace from both ends. -/
def pyStripL (s : List Char) : List Char :=
  ((s.dropWhile pyIsSpace).reverse.dropWhile pyIsSpace).reverse

/-- Python `str.strip('_')`. -/
def pyStripUnderL (s : List Char) : List Char :=
  ((s.dropWhile (· = '_')).reverse.dropWhile (· = '_')).reverse

/-- Python `str.split()` with no argument: split on whitespace runs,
discarding empty pieces. -/
def pySplitL : List Char → List (List Char)
  | [] => []
  | c :: rest =>
    if pyIsSpace c then pySplitL rest
    else
      match pySplitL rest with
      | [] => [[c]]
      | w :: ws => if rest ≠ [] ∧ pyIsSpace rest.head! then [c] :: w :: ws
                   else (c :: w) :: ws

/-- `os.path.basename` (POSIX): everything after the last `/`. -/
def pyBasenameL (s : List Char) : List Char :=
  ((s.reverse.takeWhile (· ≠ '/'))).reverse

/-- Root part of `os.path.splitext`: drop the extension, i.e. everything from
the last `.` of the basename on — unless every character before that `.`
(within the basename) is itself a `.`, in which case there is no extension. -/
def pySplitextRootL (s : List Char) : List Char :=
  let base := pyBasenameL s
  let dir  := s.take (s.length - base.length)
  let extLen := base.reverse.takeWhile (· ≠ '.') |>.length
  if extLen < base.length ∧ (base.take (base.length - extLen - 1)).any (· ≠ '.') then
    dir ++ base.take (base.length - extLen - 1)
  else s

/-- String wrappers. -/
def pyLower (s : String) : String := ⟨pyLowerL s.data⟩

def pyStrip (s : String) : String := ⟨pyStripL s.data⟩

def pyBasename (s : String) : String := ⟨pyBasenameL s.data⟩

def pySplitextRoot (s : String) : String := ⟨pySplitextRootL s.data⟩

def pySplit (s : String) : List String := (pySplitL s.data).map (⟨·⟩)

/-! ## Collection-name derivation

`KnowledgeBaseManager._create_valid_collection_name` (prefix `doc`) and
`PDFProcessor._create_valid_collection_name` (prefix `pdf`) are identical up
to the fixed prefix.  The 8-character `hashlib.md5(...).hexdigest()[:8]` value
is an external library call: it is modelled as an abstract parameter
`h : String → String`. -/

/-- One pass of Python `name.replace('__', '_')` (leftmost, non-overlapping). -/
def replaceDoubleUnder : List Char → List Char
  | '_' :: '_' :: rest => '_' :: replaceDoubleUnder rest
  | c :: rest => c :: replaceDoubleUnder rest
  | [] => []

/-- Does the string contain `'__'`? (Python `'__' in name`.) -/
def hasDoubleUnder : List Char → Bool
  | '_' :: '_' :: _ => true
  | _ :: rest => hasDoubleUnder rest
  | [] => false

/-- The `while '__' in name: name = name.replace('__', '_')` loop, with fuel
bounding the number of passes (each shortening pass removes at least one
character, so `length + 1` passes always suffice). -/
def collapseUnderLoop : Nat → List Char → List Char
  | 0, s => s
  | fuel + 1, s => if hasDoubleUnder s then collapseUnderLoop fuel (replaceDoubleUnder s) else s

/-- The sanitised base name: extension stripped, truncated to 20 characters,
non-alphanumerics replaced by `_`, stripped of edge `_`, `__` collapsed,
padded with the prefix when shorter than 3 characters.  Mirrors the body of
`_create_valid_collection_name` before the final f-string. -/
def sanitizedBase (pre : String) (filename : String) : List Char :=
  let name := (pySplitextRootL filename.data).take 20
  let name := name.map (fun c => if c.isAlphanum then c else '_')
  let name := pyStripUnderL name
  let name := collapseUnderLoop (name.length + 1) name
  if name.length < 3 then pre.data ++ '_' :: name else name

/-- `_create_valid_collection_name(filename)`, parameterised by the fixed
prefix (`"doc"` in `KnowledgeBaseManager`, `"pdf"` in `PDFProcessor`) and the
abstract md5-prefix function `h`. -/
def create_valid_collection_name (h : String → String) (pre : String)
    (filename : String) : String :=
  let file_hash := h filename
  let name := sanitizedBase pre filename
  let collection_name := pre.data ++ '_' :: name ++ '_' :: file_hash.data
  if collection_name.length > 63 then
    ⟨collection_name.take 55 ++ '_' :: file_hash.data⟩
  else ⟨collection_name⟩

/-- The `KnowledgeBaseManager` variant (prefix `doc`). -/
def create_valid_collection_name_doc (h : String → String) (filename : String) : String :=
  create_valid_collection_name h "doc" filename

/-- The `PDFProcessor` variant (prefix `pdf`). -/
def create_valid_collection_name_pdf (h : String → String) (filename : String) : String :=
  create_valid_collection_name h "pdf" filename

/-! ## `PDFProcessor.search_multiple_pdfs`

The Vector Store, the LLM and the per-collection query loop are modelled by
parameters: `kb` is the `knowledge_bases` dict (`file_path → collection_name`,
in insertion order), `vect c` is the flattened
`zip(results['documents'][0], results['distances'][0])` answer of collection
`c` (at most `n_results = 3` pairs; a distance may be `None`), and
`llm prompt` is `self.llm.invoke(prompt).content`.  Distances are exact
rationals standing for the Python floats. -/

/-- One retrieval candidate: originating file path, chunk text, optional
distance — one aligned row of `all_results` / `result_sources` /
`result_distances`. -/
structure Candidate where
  source : String
  doc : String
  dist : Option ℚ
  deriving Repr, DecidableEq

/-- The flat candidate list built by the collection loop of
`search_multiple_pdfs`. -/
def gatherCandidates (kb : List (String × String))
    (vect : String → List (String × Option ℚ)) : List Candidate :=
  kb.flatMap fun fc => (vect fc.2).map fun dd => ⟨fc.1, dd.1, dd.2⟩

/-- `any(d is not None for d in result_distances)`. -/
def anyDefined (l : List (Option ℚ)) : Bool := l.any Option.isSome

/-- `min([d for d in result_distances if d is not None])` (defined only when
some distance is). -/
def minDefined (l : List (Option ℚ)) : Option ℚ :=
  match l.filterMap id with
  | [] => none
  | x :: xs => some (xs.foldl min x)

/-- The first-minimal-index loop: running index of the first strictly smallest
defined distance (`min_idx`); `min_dist = none` stands for the initial
`float('inf')`, which every defined distance beats.  Falls back to `0` when no
distance is defined. -/
def minIdxLoop (l : List (Option ℚ)) : Nat :=
  if anyDefined l then
    (l.foldl
      (fun (st : Nat × Option Nat × Option ℚ) d =>
        match d with
        | some v =>
          (match st.2.2 with
           | some m => if v < m then (st.1 + 1, some st.1, some v) else (st.1 + 1, st.2.1, st.2.2)
           | none => (st.1 + 1, some st.1, some v))
        | none => (st.1 + 1, st.2.1, st.2.2))
      (0, none, none)).2.1.getD 0
  else 0

/-- Result dictionary of `search_multiple_pdfs`; the `llmCalled` flag records
whether `self.llm.invoke` ran on this path. -/
structure MultiResult where
  answer : String
  source : String
  confidence : ℚ
  detailsSources : List String
  totalSourcesChecked : Nat
  hasDetails : Bool
  llmCalled : Bool
  deriving Repr, DecidableEq

/-- `search_multiple_pdfs`, after the candidate-gathering loop: the
empty-candidates early return, best-source selection, prompt composition
(concatenating every candidate chunk), LLM call and confidence clamp. -/
def searchMultiplePdfsCore (llm : String → String) (query : String)
    (cands : List Candidate) (totalSourcesChecked : Nat) : MultiResult :=
  let all_results := cands.map Candidate.doc
  let result_sources := cands.map Candidate.source
  let result_distances := cands.map Candidate.dist
  if all_results = [] then
    { answer := "I couldn't find any relevant information in the documents."
      source := "general_knowledge", confidence := 0
      detailsSources := [], totalSourcesChecked := 0, hasDetails := false
      llmCalled := false }
  else
    let min_idx := minIdxLoop result_distances
    let top_source := result_sources.getD min_idx ""
    let top_pdf : Option String := if top_source ≠ "" then some (pyBasename top_source) else none
    let combined_context := String.intercalate "\n" all_results
    let prompt := "Based on the following information from multiple documents, please provide a comprehensive answer to the question. If the information is not sufficient, say so.\n\nQuestion: " ++ query ++ "\n\nInformation from documents:\n" ++ combined_context ++ "\n\nAnswer:"
    let response := llm prompt
    let confidence :=
      if anyDefined result_distances then
        match minDefined result_distances with
        | some m => max 0 (min 1 (1 - m))
        | none => 0
      else 0
    { answer := response
      source := (top_pdf.filter (· ≠ "")).getD "multiple_documents"
      confidence := confidence
      detailsSources := match top_pdf with | some p => if p ≠ "" then [p] else [] | none => []
      totalSourcesChecked := totalSourcesChecked
      hasDetails := true
      llmCalled := true }

/-- `PDFProcessor.search_multiple_pdfs` over the modelled Vector Store. -/
def search_multiple_pdfs (llm : String → String)
    (kb : List (String × String)) (vect : String → List (String × Option ℚ))
    (query : String) : MultiResult :=
  searchMultiplePdfsCore llm query (gatherCandidates kb vect) kb.length

/-! ## `PDFProcessor.search_pdf`: identifier resolution and single search

The four matching loops are translated one-for-one; a failed resolution
(`raise Exception(...)`) becomes `none`. -/

/-- Loop 1: exact or (stripped, lowercased) case-insensitive match on the
stored full path. -/
def resolveByPath (kb : List (String × String)) (identifier : String) : Option String :=
  let norm_id := pyLower (pyStrip identifier)
  (kb.find? fun fc => fc.1 = identifier ∨ pyLower fc.1 = norm_id).map (·.2)

/-- Loop 2: exact or case-insensitive match on a collection name. -/
def resolveByCollection (kb : List (String × String)) (identifier : String) : Option String :=
  let norm_id := pyLower (pyStrip identifier)
  (kb.find? fun fc => fc.2 = identifier ∨ pyLower fc.2 = norm_id).map (·.2)

/-- Loop 3: exact or case-insensitive match on the path's basename. -/
def resolveByBasename (kb : List (String × String)) (identifier : String) : Option String :=
  let norm_id := pyLower (pyStrip identifier)
  (kb.find? fun fc => pyBasename fc.1 = identifier ∨ pyLower (pyBasename fc.1) = norm_id).map (·.2)

/-- Loop 4: exact or case-insensitive match on the basename with its
extension stripped. -/
def resolveByStem (kb : List (String × String)) (identifier : String) : Option String :=
  let norm_id := pyLower (pyStrip identifier)
  (kb.find? fun fc =>
    pySplitextRoot (pyBasename fc.1) = identifier ∨
    pyLower (pySplitextRoot (pyBasename fc.1)) = norm_id).map (·.2)

/-- The resolver of `search_pdf`: the four loops in order, stopping at the
first that sets `collection_name`. -/
def resolveIdentifier (kb : List (String × String)) (identifier : String) : Option String :=
  match resolveByPath kb identifier with
  | some c => some c
  | none =>
    match resolveByCollection kb identifier with
    | some c => some c
    | none =>
      match resolveByBasename kb identifier with
      | some c => some c
      | none => resolveByStem kb identifier

/-- Result dictionary of `search_pdf` (single-document search). -/
structure SingleResult where
  answer : String
  source : String
  confidence : ℚ
  llmCalled : Bool
  deriving Repr, DecidableEq

/-- `PDFProcessor.search_pdf` after resolution: query the one collection,
return the fixed no-information result on an empty chunk list, otherwise the
LLM answer with the fixed confidence `0.8`.  `none` models the re-raised
exception when no rule matched the identifier. -/
def search_pdf (llm : String → String) (kb : List (String × String))
    (vect : String → List (String × Option ℚ))
    (identifier query : String) : Option SingleResult :=
  match resolveIdentifier kb identifier with
  | none => none
  | some collection_name =>
    let chunks := (vect collection_name).map (·.1)
    if chunks = [] then
      some { answer := "I couldn't find any relevant information in the document."
             source := collection_name, confidence := 0, llmCalled := false }
    else
      let combined_context := String.intercalate "\n" chunks
      let prompt := "Based on the following information from the document, please answer the question. If the information is not sufficient, say so.\n\nQuestion: " ++ query ++ "\n\nInformation from document:\n" ++ combined_context ++ "\n\nAnswer:"
      some { answer := llm prompt, source := collection_name
             confidence := 4/5, llmCalled := true }

/-! ## Python string comparison and `sorted`

Python compares strings lexicographically by code point, a shorter string
that is a prefix of a longer one coming first.  `sorted(l)` /
`sorted(l, reverse=True)` are modelled by insertion sorts over that order. -/

/-- Python `a < b` on strings, on the underlying character lists. -/
def lexLt : List Char → List Char → Bool
  | [], [] => false
  | [], _ :: _ => true
  | _ :: _, [] => false
  | a :: as, b :: bs =>
    if a.toNat < b.toNat then true
    else if b.toNat < a.toNat then false
    else lexLt as bs

/-- Python `a < b` on `String`. -/
def pyStrLt (a b : String) : Bool := lexLt a.data b.data

/-- Insertion step for ascending `sorted`. -/
def insertAsc (lt : α → α → Bool) (x : α) : List α → List α
  | [] => [x]
  | y :: ys => if lt x y then x :: y :: ys else y :: insertAsc lt x ys

/-- `sorted(l)` (ascending, stable). -/
def sortAsc (lt : α → α → Bool) : List α → List α
  | [] => []
  | x :: xs => insertAsc lt x (sortAsc lt xs)

/-- Insertion step for `sorted(l, reverse=True)`. -/
def insertDesc (lt : α → α → Bool) (x : α) : List α → List α
  | [] => [x]
  | y :: ys => if lt y x then x :: y :: ys else y :: insertDesc lt x ys

/-- `sorted(l, reverse=True)` (descending). -/
def sortDesc (lt : α → α → Bool) : List α → List α
  | [] => []
  | x :: xs => insertDesc lt x (sortDesc lt xs)

/-! ## `KnowledgeBaseManager`: the document index and its lifecycle

Python dictionaries (unique keys, insertion order) are association lists:
`alistSet` replaces in place or appends, `alistDel` is `del`. -/

/-- `d.get(k)` / `k in d`. -/
def alistGet : List (String × α) → String → Option α
  | [], _ => none
  | e :: rest, k => if e.1 = k then some e.2 else alistGet rest k

/-- `d[k] = v`. -/
def alistSet (m : List (String × α)) (k : String) (v : α) : List (String × α) :=
  match m with
  | [] => [(k, v)]
  | e :: rest => if e.1 = k then (k, v) :: rest else e :: alistSet rest k v

/-- `del d[k]`. -/
def alistDel (m : List (String × α)) (k : String) : List (String × α) :=
  m.filter fun e => e.1 ≠ k

/-- One value of `knowledge_base_index["documents"]`: the `DocumentRecord`. -/
structure DocInfo where
  collection_name : String
  file_path : String
  indexed_at : String
  file_type : String
  file_name : String
  file_size : Nat
  text_length : Nat
  chunking_method : String
  deriving Repr, DecidableEq

/-- `knowledge_base_index`: the `documents` map and the reverse `collections`
map. -/
structure KBIndex where
  documents : List (String × DocInfo)
  collections : List (String × String)
  deriving Repr, DecidableEq

/-- The empty index `{"documents": {}, "collections": {}}`. -/
def emptyIndex : KBIndex := ⟨[], []⟩

/-- The watched directory and the external services `index_document` consumes:
directory listing, `stat`, and the Text Extraction Service. -/
structure FSEnv where
  dirPath : String
  files : List String
  fileSize : String → Nat
  mtime : String → String
  extract : String → String

/-- `self.supported_extensions`. -/
def supported_extensions : List String :=
  [".pdf", ".docx", ".csv", ".txt", ".rar", ".zip", ".xlsx", ".json"]

/-- `Path.suffix`: the extension including the dot (empty when there is
none). -/
def pySuffix (s : String) : String := ⟨s.data.drop (pySplitextRootL s.data).length⟩

/-- `get_document_files()`: supported files of the directory, sorted. -/
def get_document_files (env : FSEnv) : List String :=
  sortAsc pyStrLt (env.files.filter fun f => pyLower (pySuffix f) ∈ supported_extensions)

/-- The collection name `index_document` ends up using for a file: the
`pdf`-prefixed `PDFProcessor` derivation (applied to the path's basename) for
PDFs, the `doc`-prefixed manager derivation otherwise. -/
def collectionFor (h : String → String) (file_name : String) : String :=
  if pyLower (pySuffix file_name) = ".pdf" then
    create_valid_collection_name_pdf h file_name
  else
    create_valid_collection_name_doc h file_name

/-- `KnowledgeBaseManager.index_document(file_name)`: existence and
supported-extension guards, text extraction (empty text fails for non-PDFs),
then the `documents` / `collections` double update.  Failures return the index
unchanged with `false`. -/
def index_document (env : FSEnv) (h : String → String) (idx : KBIndex)
    (file_name : String) : KBIndex × Bool :=
  if file_name ∉ env.files then (idx, false)
  else if pyLower (pySuffix file_name) ∉ supported_extensions then (idx, false)
  else
    let file_path := env.dirPath ++ "/" ++ file_name
    let isPdf := pyLower (pySuffix file_name) = ".pdf"
    let extracted := env.extract file_name
    if ¬ isPdf ∧ pyStrip extracted = "" then (idx, false)
    else
      let collection_name := collectionFor h file_name
      let file_size := env.fileSize file_name
      let text_length := if isPdf then file_size / 10 else extracted.length
      let rec_ : DocInfo :=
        { collection_name := collection_name
          file_path := file_path
          indexed_at := env.mtime file_name
          file_type := (pyLower (pySuffix file_name)).drop 1
          file_name := file_name
          file_size := file_size
          text_length := text_length
          chunking_method := "simple_text_splitting" }
      ({ documents := alistSet idx.documents file_name rec_
         collections := alistSet idx.collections collection_name file_name }, true)

/-- `KnowledgeBaseManager.remove_document(file_name)`: `false` when absent,
otherwise delete the collection and both index entries. -/
def remove_document (idx : KBIndex) (file_name : String) : KBIndex × Bool :=
  match alistGet idx.documents file_name with
  | none => (idx, false)
  | some info =>
    ({ documents := alistDel idx.documents file_name
       collections := alistDel idx.collections info.collection_name }, true)

/-- The loop of `index_all_documents`: already-indexed names are reported
successful without re-work, the rest go through `index_document`. -/
def indexAllLoop (env : FSEnv) (h : String → String) (idx : KBIndex) :
    List String → KBIndex × List (String × Bool)
  | [] => (idx, [])
  | f :: fs =>
    if (alistGet idx.documents f).isSome then
      let r := indexAllLoop env h idx fs
      (r.1, (f, true) :: r.2)
    else
      let step := index_document env h idx f
      let r := indexAllLoop env h step.1 fs
      (r.1, (f, step.2) :: r.2)

/-- `KnowledgeBaseManager.index_all_documents()`. -/
def index_all_documents (env : FSEnv) (h : String → String) (idx : KBIndex) :
    KBIndex × List (String × Bool) :=
  indexAllLoop env h idx (get_document_files env)

/-- `KnowledgeBaseManager.rebuild_index()`: delete every collection, clear the
index, re-index everything. -/
def rebuild_index (env : FSEnv) (h : String → String) (_ : KBIndex) :
    KBIndex × List (String × Bool) :=
  index_all_documents env h emptyIndex

/-! ## Manager-level search -/

/-- Result dictionary of `search_all_documents` / `search_single_document`.
`answer = none` / `source = none` model the Python `None` values of the
structured error results. -/
structure ManagerResult where
  error : Option String
  answer : Option String
  source : Option String
  confidence : ℚ
  indexedDocuments : List String
  llmCalled : Bool
  deriving Repr, DecidableEq

/-- `KnowledgeBaseManager.search_all_documents(question)`: refresh the
file-path → collection map from the (re-loaded) index, return the structured
no-documents error result on an empty index, otherwise delegate to
`search_multiple_pdfs`. -/
def search_all_documents (llm : String → String) (env : FSEnv)
    (vect : String → List (String × Option ℚ)) (idx : KBIndex)
    (question : String) : ManagerResult :=
  let kb := idx.documents.map fun e => (env.dirPath ++ "/" ++ e.1, e.2.collection_name)
  let indexed_documents := idx.documents.map (·.1)
  if indexed_documents = [] then
    { error := some "No documents are indexed. Please index some documents first."
      answer := none, source := none, confidence := 0
      indexedDocuments := [], llmCalled := false }
  else
    let result := search_multiple_pdfs llm kb vect question
    { error := none, answer := some result.answer, source := some result.source
      confidence := result.confidence
      indexedDocuments := indexed_documents, llmCalled := result.llmCalled }

/-- `KnowledgeBaseManager.search_single_document(file_name, question)`:
not-indexed error result, otherwise `search_pdf` on the record's collection
name (a resolver failure is caught into an error result). -/
def search_single_document (llm : String → String) (env : FSEnv)
    (vect : String → List (String × Option ℚ)) (idx : KBIndex)
    (file_name question : String) : ManagerResult :=
  let kb := idx.documents.map fun e => (env.dirPath ++ "/" ++ e.1, e.2.collection_name)
  match alistGet idx.documents file_name with
  | none =>
    { error := some ("Document '" ++ file_name ++ "' is not indexed. Please index it first.")
      answer := none, source := none, confidence := 0
      indexedDocuments := [], llmCalled := false }
  | some info =>
    match search_pdf llm kb vect info.collection_name question with
    | some r =>
      { error := none, answer := some r.answer, source := some r.source
        confidence := r.confidence, indexedDocuments := [], llmCalled := r.llmCalled }
    | none =>
      { error := some ("Error searching document '" ++ file_name ++ "'")
        answer := none, source := none, confidence := 0
        indexedDocuments := [], llmCalled := false }

/-! ## Evaluation metrics -/

/-- `KnowledgeBaseManager._calculate_text_similarity(text1, text2)`: word-set
Jaccard similarity, `1.0` for two empty word sets, `0.0` when exactly one is
empty. -/
def calculate_text_similarity (text1 text2 : String) : ℚ :=
  let words1 := (pySplit text1).toFinset
  let words2 := (pySplit text2).toFinset
  if words1 = ∅ ∧ words2 = ∅ then 1
  else if words1 = ∅ ∨ words2 = ∅ then 0
  else (words1 ∩ words2).card / ((words1 ∪ words2).card : ℚ)

/-- The always-computed fields of `calculate_search_metrics`. -/
structure SearchMetrics where
  answer_relevance : ℚ
  length_ratio : ℚ
  keyword_coverage : ℚ
  deriving Repr, DecidableEq

/-- `KnowledgeBaseManager.calculate_search_metrics` (the unconditional
metrics: answer relevance on the lowercased answers, length ratio, keyword
coverage). -/
def calculate_search_metrics (expected_answer actual_answer : String) : SearchMetrics :=
  let answer_similarity := calculate_text_similarity (pyLower expected_answer) (pyLower actual_answer)
  let expected_length := (pySplit expected_answer).length
  let actual_length := (pySplit actual_answer).length
  let expected_keywords := (pySplit (pyLower expected_answer)).toFinset
  let actual_keywords := (pySplit (pyLower actual_answer)).toFinset
  { answer_relevance := answer_similarity
    length_ratio := if 0 < expected_length then (actual_length : ℚ) / expected_length else 0
    keyword_coverage :=
      if expected_keywords ≠ ∅ then
        ((expected_keywords ∩ actual_keywords).card : ℚ) / expected_keywords.card
      else 0 }

/-! ## Evaluation persistence and history

`save_evaluation_results` writes the run as JSON under a
`evaluation_results_{timestamp}.json` name in the database directory and
`load_evaluation_results` reads it back; the directory is modelled as an
association list from file name to stored content, serialisation being the
identity on the structured value.  `get_evaluation_history` globs
`evaluation_results_*.json` and sorts descending. -/

/-- A `strftime("%Y%m%d_%H%M%S")` timestamp. -/
structure Ts where
  year : Nat
  month : Nat
  day : Nat
  hour : Nat
  minute : Nat
  second : Nat
  deriving Repr, DecidableEq

/-- Field bounds under which the `strftime` fields occupy exactly their
zero-padded widths. -/
def Ts.Valid (t : Ts) : Prop :=
  t.year < 10000 ∧ t.month < 100 ∧ t.day < 100 ∧
  t.hour < 100 ∧ t.minute < 100 ∧ t.second < 100

instance (t : Ts) : Decidable t.Valid := by unfold Ts.Valid; infer_instance

/-- Chronological order on timestamps. -/
def tsLt (a b : Ts) : Bool :=
  if a.year ≠ b.year then a.year < b.year
  else if a.month ≠ b.month then a.month < b.month
  else if a.day ≠ b.day then a.day < b.day
  else if a.hour ≠ b.hour then a.hour < b.hour
  else if a.minute ≠ b.minute then a.minute < b.minute
  else a.second < b.second

/-- Zero-padded fixed-width decimal rendering (`%Y`, `%m`, …). -/
def padC : Nat → Nat → List Char
  | 0, _ => []
  | w + 1, n => Nat.digitChar (n / 10 ^ w) :: padC w (n % 10 ^ w)

/-- `strftime("%Y%m%d_%H%M%S")`. -/
def encodeTs (t : Ts) : List Char :=
  padC 4 t.year ++ padC 2 t.month ++ padC 2 t.day ++ '_' ::
    (padC 2 t.hour ++ padC 2 t.minute ++ padC 2 t.second)

/-- The generated artifact name `evaluation_results_{timestamp}.json`. -/
def evalFilename (t : Ts) : String :=
  ⟨("evaluation_results_".data ++ encodeTs t) ++ ".json".data⟩

/-- `save_evaluation_results(results)` with the generated filename: write the
run into the database directory under that name. -/
def save_evaluation_results (store : List (String × α)) (results : α) (t : Ts) :
    List (String × α) × String :=
  (alistSet store (evalFilename t) results, evalFilename t)

/-- `load_evaluation_results(filename)`. -/
def load_evaluation_results (store : List (String × α)) (filename : String) : Option α :=
  alistGet store filename

/-- The `evaluation_results_*.json` glob. -/
def matchesEvalGlob (s : String) : Bool :=
  "evaluation_results_".data.isPrefixOf s.data ∧ ".json".data.isSuffixOf s.data ∧
    "evaluation_results_".length + ".json".length ≤ s.length

/-- `get_evaluation_history()`: matching file names, `sorted(reverse=True)`. -/
def get_evaluation_history (store : List (String × α)) : List String :=
  sortDesc pyStrLt ((store.map (·.1)).filter matchesEvalGlob)

/-! ## The Tab-3 eligibility-check loop (`knowledge_base_app_tabs.py`)

`st.session_state['eligibility_cache']` is an association list from item
description to boolean.  `result.get("answer", "No")` distinguishes an absent
key (default `"No"`) from a present-but-`None` value; `.lower()` on `None`
raises `AttributeError`, modelled as `none`. -/

/-- `normalize_query(query)`: lowercase plus the three substring rewrites. -/
def pyReplaceGo (pat rep : List Char) : Nat → List Char → List Char
  | _, [] => []
  | 0, s => s
  | fuel + 1, c :: rest =>
    if pat ≠ [] ∧ pat.isPrefixOf (c :: rest) then
      rep ++ pyReplaceGo pat rep fuel ((c :: rest).drop pat.length)
    else c :: pyReplaceGo pat rep fuel rest

/-- Python `s.replace(pat, rep)` (all non-overlapping occurrences, left to
right). -/
def pyReplace (s pat rep : String) : String :=
  ⟨pyReplaceGo pat.data rep.data s.data.length s.data⟩

/-- `normalize_query` from `knowledge_base_app_tabs.py`. -/
def normalize_query (query : String) : String :=
  let query := pyLower query
  let query := pyReplace query "summarise" "summarize"
  let query := pyReplace query "this documents" "these documents"
  let query := pyReplace query "document" "documents"
  query

/-- `result.get("answer", "No")` over an optional, nullable field: `none`
means the key is absent (default applies), `some none` a stored `None`. -/
def getAnswerOrDefault : Option (Option String) → Option String
  | none => some "No"
  | some v => v

/-- `answer.lower().strip()` then the strict `answer == "yes"` test; `none`
is the `AttributeError` raised when the retrieved answer is `None`. -/
def eligibleOfAnswerField (field : Option (Option String)) : Option Bool :=
  (getAnswerOrDefault field).map fun a => pyStrip (pyLower a) = "yes"

/-- One extracted bill row: item description and amount. -/
structure BillItem where
  item : String
  amount : ℚ
  deriving Repr, DecidableEq

/-- The eligibility query composed for an item. -/
def eligibilityQuery (item_name : String) : String :=
  "Is '" ++ item_name ++ "' payable under my insurance policy? Answer with ONLY 'Yes' or 'No'. Do not provide any explanation."

/-- Output of the Tab-3 loop: result rows, total eligible amount, final
cache, and the item names that were actually sent to the aggregator. -/
structure EligOutcome where
  rows : List (String × ℚ × Bool)
  total_eligible : ℚ
  cache : List (String × Bool)
  queried : List String
  deriving Repr, DecidableEq

/-- The per-item eligibility loop: cached items are reused, uncached ones are
classified through `search` (the Multi-Document Aggregator) and cached;
a `None` answer makes the whole loop raise (`none`). -/
def eligibilityLoop (search : String → ManagerResult) :
    List BillItem → List (String × Bool) → Option EligOutcome
  | [], cache => some ⟨[], 0, cache, []⟩
  | entry :: rest, cache =>
    match alistGet cache entry.item with
    | some eligible =>
      (eligibilityLoop search rest cache).map fun out =>
        ⟨(entry.item, entry.amount, eligible) :: out.rows,
         (if eligible then entry.amount else 0) + out.total_eligible,
         out.cache, out.queried⟩
    | none =>
      let result := search (normalize_query (eligibilityQuery entry.item))
      match eligibleOfAnswerField (some result.answer) with
      | none => none
      | some eligible =>
        (eligibilityLoop search rest (alistSet cache entry.item eligible)).map fun out =>
          ⟨(entry.item, entry.amount, eligible) :: out.rows,
           (if eligible then entry.amount else 0) + out.total_eligible,
           out.cache, entry.item :: out.queried⟩

/-! ## Shared lemmas about the candidate minimum -/

lemma minDefined_eq_min? (l : List (Option ℚ)) : minDefined l = (l.filterMap id).min? := by
  cases hl : l.filterMap id <;> simp [minDefined, List.min?, hl]

lemma minDefined_eq_some (l : List (Option ℚ)) (m : ℚ)
    (hm : some m ∈ l) (hmin : ∀ d : ℚ, some d ∈ l → m ≤ d) :
    minDefined l = some m := by
  rw [minDefined_eq_min?]
  rw [@List.min?_eq_some_iff ℚ m _ _ ⟨fun h1 h2 => le_antisymm h1 h2⟩ le_refl min_choice
      (fun _ _ _ => le_min_iff)]
  constructor
  · exact List.mem_filterMap.mpr ⟨some m, hm, rfl⟩
  · intro b hb
    obtain ⟨x, hx, hxb⟩ := List.mem_filterMap.mp hb
    exact hmin b (hxb ▸ hx)

lemma anyDefined_true (l : List (Option ℚ)) (m : ℚ) (hm : some m ∈ l) :
    anyDefined l = true := by
  unfold anyDefined
  exact List.any_eq_true.mpr ⟨some m, hm, rfl⟩

/-- C1: in `search_multiple_pdfs`, whenever the flat candidate list contains a
candidate with a defined distance, the returned confidence is
`max(0, min(1, 1 - minDistance))` for `minDistance` the least defined distance
over all candidates; distances `[-0.2, 0.05, 1.3]` clamp the confidence to
`1` and `[0.9]` gives `0.1`; with candidates but no defined distance the
confidence is `0.0`. -/
theorem multi_doc_confidence_clamp :
    (∀ (llm : String → String) (query : String) (cands : List Candidate) (n : Nat) (m : ℚ),
        some m ∈ cands.map Candidate.dist →
        (∀ d : ℚ, some d ∈ cands.map Candidate.dist → m ≤ d) →
        (searchMultiplePdfsCore llm query cands n).confidence = max 0 (min 1 (1 - m)))
    ∧ (∀ (llm : String → String) (query : String) (cands : List Candidate) (n : Nat),
        cands ≠ [] →
        (∀ d ∈ cands.map Candidate.dist, d = none) →
        (searchMultiplePdfsCore llm query cands n).confidence = 0)
    ∧ (searchMultiplePdfsCore (fun _ => "a") "q"
        [⟨"p", "c", some (-(1 : ℚ)/5)⟩, ⟨"p", "c", some (1/20)⟩, ⟨"p", "c", some (13/10)⟩] 3).confidence = 1
    ∧ (searchMultiplePdfsCore (fun _ => "a") "q" [⟨"p", "c", some (9/10)⟩] 1).confidence = 1/10 := by
  have h1 : ∀ (llm : String → String) (query : String) (cands : List Candidate) (n : Nat) (m : ℚ),
      some m ∈ cands.map Candidate.dist →
      (∀ d : ℚ, some d ∈ cands.map Candidate.dist → m ≤ d) →
      (searchMultiplePdfsCore llm query cands n).confidence = max 0 (min 1 (1 - m)) := by
    intro llm query cands n m hm hmin
    have hne : cands ≠ [] := by rintro rfl; simp at hm
    unfold searchMultiplePdfsCore
    rw [if_neg (by simpa using hne)]
    simp only [anyDefined_true (cands.map Candidate.dist) m hm,
      minDefined_eq_some (cands.map Candidate.dist) m hm hmin, if_true]
  refine ⟨h1, ?_, ?_, ?_⟩
  · intro llm query cands n hne hnone
    unfold searchMultiplePdfsCore
    rw [if_neg (by simpa using hne)]
    have : anyDefined (cands.map Candidate.dist) = false := by
      unfold anyDefined
      simp only [List.any_eq_false]
      intro x hx
      rw [hnone x hx]; simp
    simp [this]
  · rw [h1 _ _ _ _ (-(1 : ℚ)/5) (by simp)
      (by intro d hd; simp at hd; rcases hd with h | h | h <;> subst h <;> norm_num)]
    norm_num
  · rw [h1 _ _ _ _ ((9 : ℚ)/10) (by simp) (by simp)]
    norm_num

/-- C1 witness: the clamp theorem applied to one concrete candidate list. -/
theorem multi_doc_confidence_clamp_witness :
    (searchMultiplePdfsCore (fun _ => "a") "q" [⟨"p", "c", some ((1 : ℚ)/2)⟩] 1).confidence
      = max 0 (min 1 (1 - 1/2)) :=
  multi_doc_confidence_clamp.1 (fun _ => "a") "q" [⟨"p", "c", some ((1 : ℚ)/2)⟩] 1 (1/2)
    (by simp) (by simp)

/-- C2 counterexample: with an empty index, `search_all_documents` returns the
structured no-documents error result — its `source` is `None`, not
`general_knowledge`, and its `answer` is `None`, not the fixed
"no relevant information" text — so the claimed shape does not hold on the
no-documents-indexed path. -/
theorem no_docs_indexed_not_general_knowledge :
    (search_all_documents (fun _ => "a") ⟨"pdfs", [], fun _ => 0, fun _ => "", fun _ => ""⟩
        (fun _ => []) emptyIndex "q").source ≠ some "general_knowledge" ∧
    (search_all_documents (fun _ => "a") ⟨"pdfs", [], fun _ => 0, fun _ => "", fun _ => ""⟩
        (fun _ => []) emptyIndex "q").answer
      ≠ some "I couldn't find any relevant information in the documents." := by
  constructor <;> simp [search_all_documents, emptyIndex]

/-- C2 amended: an empty flat candidate list makes `search_multiple_pdfs`
return the fixed "no relevant information" answer with confidence `0.0` and
source `general_knowledge` without invoking the Completion Service; but when
no documents are indexed at all, the manager-level `search_all_documents`
instead short-circuits to a structured error result (`answer = None`,
`source = None`, confidence `0.0`), also without invoking the Completion
Service. -/
theorem empty_candidates_fixed_answer_no_llm :
    (∀ (llm : String → String) (query : String) (n : Nat),
        searchMultiplePdfsCore llm query [] n =
          { answer := "I couldn't find any relevant information in the documents."
            source := "general_knowledge", confidence := 0
            detailsSources := [], totalSourcesChecked := 0, hasDetails := false
            llmCalled := false })
    ∧ (∀ (llm : String → String) (env : FSEnv) (vect : String → List (String × Option ℚ))
          (idx : KBIndex) (question : String), idx.documents = [] →
        search_all_documents llm env vect idx question =
          { error := some "No documents are indexed. Please index some documents first."
            answer := none, source := none, confidence := 0
            indexedDocuments := [], llmCalled := false }) := by
  constructor
  · intro llm query n; rfl
  · intro llm env vect idx question hidx
    simp [search_all_documents, hidx]

/-- C2 witness: the amended theorem applied to the empty index. -/
theorem empty_candidates_fixed_answer_no_llm_witness :
    search_all_documents (fun _ => "b") ⟨"pdfs", [], fun _ => 0, fun _ => "", fun _ => ""⟩
        (fun _ => []) emptyIndex "what is covered" =
      { error := some "No documents are indexed. Please index some documents first."
        answer := none, source := none, confidence := 0
        indexedDocuments := [], llmCalled := false } :=
  empty_candidates_fixed_answer_no_llm.2 (fun _ => "b")
    ⟨"pdfs", [], fun _ => 0, fun _ => "", fun _ => ""⟩ (fun _ => []) emptyIndex
    "what is covered" rfl

/-! ## Association-list and eligibility-loop lemmas -/

lemma alistGet_set (m : List (String × α)) (k q : String) (v : α) :
    alistGet (alistSet m k v) q = if k = q then some v else alistGet m q := by
  induction m with
  | nil => simp [alistSet, alistGet]
  | cons e rest ih =>
    by_cases hek : e.1 = k
    · simp only [alistSet, hek, if_pos rfl, alistGet]
      by_cases hkq : k = q
      · simp [hkq]
      · simp [hkq, hek ▸ hkq]
    · simp only [alistSet, if_neg hek, alistGet]
      by_cases heq : e.1 = q
      · have : ¬ k = q := fun h => hek (by rw [h, heq])
        simp [heq, this]
      · simp [heq, ih]

lemma eligLoop_queried (search : String → ManagerResult) :
    ∀ (items : List BillItem) (cache : List (String × Bool)) (out : EligOutcome),
      eligibilityLoop search items cache = some out →
      out.queried.Nodup ∧ ∀ q ∈ out.queried, alistGet cache q = none := by
  intro items
  induction items with
  | nil =>
    intro cache out h
    simp only [eligibilityLoop] at h
    cases h
    simp
  | cons e rest ih =>
    intro cache out h
    simp only [eligibilityLoop] at h
    cases hc : alistGet cache e.item with
    | some b =>
      rw [hc] at h
      dsimp only at h
      cases hrest : eligibilityLoop search rest cache with
      | none => rw [hrest] at h; exact Option.noConfusion h
      | some out' =>
        rw [hrest] at h
        simp only [Option.map_some'] at h
        cases h
        obtain ⟨h1, h2⟩ := ih cache out' hrest
        exact ⟨h1, h2⟩
    | none =>
      rw [hc] at h
      dsimp only at h
      cases hcl : eligibleOfAnswerField (some (search (normalize_query (eligibilityQuery e.item))).answer) with
      | none => rw [hcl] at h; exact Option.noConfusion h
      | some elig =>
        rw [hcl] at h
        dsimp only at h
        cases hrest : eligibilityLoop search rest (alistSet cache e.item elig) with
        | none => rw [hrest] at h; exact Option.noConfusion h
        | some out' =>
          rw [hrest] at h
          simp only [Option.map_some'] at h
          cases h
          obtain ⟨h1, h2⟩ := ih (alistSet cache e.item elig) out' hrest
          constructor
          · refine List.nodup_cons.mpr ⟨?_, h1⟩
            intro hmem
            have := h2 e.item hmem
            rw [alistGet_set] at this
            simp at this
          · intro q hq
            rcases List.mem_cons.mp hq with hq | hq
            · rw [hq]; exact hc
            · have := h2 q hq
              rw [alistGet_set] at this
              by_cases hqe : e.item = q
              · rw [if_pos hqe] at this; simp at this
              · rw [if_neg hqe] at this; exact this

/-- C3 counterexample: an aggregator answer of `"Yes."` normalises to
`"yes."`, which is not exactly `"yes"`, so the item is classified NOT
eligible — the claim asserts `"Yes."` classifies eligible. -/
theorem yes_period_not_eligible :
    eligibilityLoop (fun _ => ⟨none, some "Yes.", some "x.pdf", 1, ["d.pdf"], true⟩)
        [⟨"MRI Scan", 100⟩] [] =
      some ⟨[("MRI Scan", 100, false)], 0, [("MRI Scan", false)], ["MRI Scan"]⟩ := by
  simp [eligibilityLoop, eligibleOfAnswerField, getAnswerOrDefault, alistGet, alistSet]
  decide

/-- C3 amended: an item is classified eligible exactly when the aggregator
answer, lowercased and stripped of surrounding whitespace, is exactly
`"yes"`; `"yes"` and `" YES "` classify eligible, while `"Yes."` (the
trailing period survives `strip()`) and `"Yes, but only partially"` classify
not eligible; and within one process lifetime an item description already in
the eligibility cache is never re-queried: the names actually queried by the
loop are pairwise distinct and absent from the initial cache. -/
theorem eligibility_strict_yes_and_cache :
    (∀ s : String, eligibleOfAnswerField (some (some s)) = some true ↔ pyStrip (pyLower s) = "yes")
    ∧ eligibleOfAnswerField (some (some "yes")) = some true
    ∧ eligibleOfAnswerField (some (some " YES ")) = some true
    ∧ eligibleOfAnswerField (some (some "Yes.")) = some false
    ∧ eligibleOfAnswerField (some (some "Yes, but only partially")) = some false
    ∧ (∀ (search : String → ManagerResult) (items : List BillItem)
          (cache : List (String × Bool)) (out : EligOutcome),
        eligibilityLoop search items cache = some out →
        out.queried.Nodup ∧ ∀ q ∈ out.queried, alistGet cache q = none) := by
  refine ⟨?_, by decide, by decide, by decide, by decide, eligLoop_queried⟩
  intro s
  simp [eligibleOfAnswerField, getAnswerOrDefault]

/-- C3 witness: the caching conjunct applied to a concrete one-item run. -/
theorem eligibility_strict_yes_and_cache_witness :
    (EligOutcome.mk [("Consultation", 100, true)] 100 [("Consultation", true)]
        ["Consultation"]).queried.Nodup :=
  (eligibility_strict_yes_and_cache.2.2.2.2.2
    (fun _ => ⟨none, some "yes", some "x.pdf", 1, ["d.pdf"], true⟩)
    [⟨"Consultation", 100⟩] []
    ⟨[("Consultation", 100, true)], 100, [("Consultation", true)], ["Consultation"]⟩
    (by simp [eligibilityLoop, eligibleOfAnswerField, getAnswerOrDefault, alistGet, alistSet]; decide)).1

lemma eligLoop_cache_mono (search : String → ManagerResult) :
    ∀ (items : List BillItem) (cache : List (String × Bool)) (out : EligOutcome),
      eligibilityLoop search items cache = some out →
      ∀ (k : String) (v : Bool), alistGet cache k = some v → alistGet out.cache k = some v := by
  intro items
  induction items with
  | nil =>
    intro cache out h k v hk
    simp only [eligibilityLoop] at h
    cases h
    exact hk
  | cons e rest ih =>
    intro cache out h k v hk
    simp only [eligibilityLoop] at h
    cases hc : alistGet cache e.item with
    | some b =>
      rw [hc] at h
      dsimp only at h
      cases hrest : eligibilityLoop search rest cache with
      | none => rw [hrest] at h; exact Option.noConfusion h
      | some out' =>
        rw [hrest] at h
        simp only [Option.map_some'] at h
        cases h
        exact ih cache out' hrest k v hk
    | none =>
      rw [hc] at h
      dsimp only at h
      cases hcl : eligibleOfAnswerField (some (search (normalize_query (eligibilityQuery e.item))).answer) with
      | none => rw [hcl] at h; exact Option.noConfusion h
      | some elig =>
        rw [hcl] at h
        dsimp only at h
        cases hrest : eligibilityLoop search rest (alistSet cache e.item elig) with
        | none => rw [hrest] at h; exact Option.noConfusion h
        | some out' =>
          rw [hrest] at h
          simp only [Option.map_some'] at h
          cases h
          refine ih (alistSet cache e.item elig) out' hrest k v ?_
          rw [alistGet_set]
          have : ¬ e.item = k := fun hek => by rw [hek] at hc; rw [hc] at hk; exact Option.noConfusion hk
          rw [if_neg this]
          exact hk

/-- C10 counterexample: classifying against the real no-documents-indexed
result aborts the whole per-item loop — `search_all_documents` puts
`answer = None` (not an absent key) into its structured error result, and
`None.lower()` raises an `AttributeError` that propagates out, instead of the
item being classified not eligible. -/
theorem null_answer_aborts_loop :
    eligibilityLoop
        (fun question =>
          search_all_documents (fun _ => "a") ⟨"pdfs", [], fun _ => 0, fun _ => "", fun _ => ""⟩
            (fun _ => []) emptyIndex question)
        [⟨"MRI Scan", 100⟩] [] = none := by
  simp [eligibilityLoop, search_all_documents, emptyIndex, eligibleOfAnswerField,
    getAnswerOrDefault, alistGet]

/-- C10 amended: a search result that truly lacks the `"answer"` key
defaults to `"No"` and classifies not eligible; but a result whose `answer`
value is `None` — as in every structured error result of
`search_all_documents`, including the no-documents-indexed one — raises an
`AttributeError` in `.lower()`, aborting the per-item loop with nothing
cached; a result with a non-`"yes"` string answer is classified not eligible
and that negative classification is cached for the item description. -/
theorem answer_default_and_null_propagation :
    eligibleOfAnswerField none = some false
    ∧ eligibleOfAnswerField (some none) = none
    ∧ (∀ (search : String → ManagerResult) (e : BillItem) (rest : List BillItem)
          (cache : List (String × Bool)),
        alistGet cache e.item = none →
        (search (normalize_query (eligibilityQuery e.item))).answer = none →
        eligibilityLoop search (e :: rest) cache = none)
    ∧ (∀ (search : String → ManagerResult) (e : BillItem) (rest : List BillItem)
          (cache : List (String × Bool)) (out : EligOutcome) (s : String),
        alistGet cache e.item = none →
        (search (normalize_query (eligibilityQuery e.item))).answer = some s →
        pyStrip (pyLower s) ≠ "yes" →
        eligibilityLoop search (e :: rest) cache = some out →
        alistGet out.cache e.item = some false) := by
  refine ⟨by decide, by decide, ?_, ?_⟩
  · intro search e rest cache hc hans
    simp only [eligibilityLoop, hc]
    simp [eligibleOfAnswerField, getAnswerOrDefault, hans]
  · intro search e rest cache out s hc hans hns h
    simp only [eligibilityLoop, hc] at h
    have hcl : eligibleOfAnswerField
        (some (search (normalize_query (eligibilityQuery e.item))).answer) = some false := by
      simp [eligibleOfAnswerField, getAnswerOrDefault, hans, hns]
    rw [hcl] at h
    dsimp only at h
    cases hrest : eligibilityLoop search rest (alistSet cache e.item false) with
    | none => rw [hrest] at h; exact Option.noConfusion h
    | some out' =>
      rw [hrest] at h
      simp only [Option.map_some'] at h
      cases h
      refine eligLoop_cache_mono search rest (alistSet cache e.item false) out' hrest e.item false ?_
      rw [alistGet_set, if_pos rfl]

/-- C10 witness: the negative-caching conjunct applied to a concrete
one-item run whose aggregator answers `"No"`. -/
theorem answer_default_and_null_propagation_witness :
    alistGet (EligOutcome.mk [("X-Ray", 50, false)] 0 [("X-Ray", false)] ["X-Ray"]).cache "X-Ray"
      = some false :=
  answer_default_and_null_propagation.2.2.2
    (fun _ => ⟨none, some "No", some "x.pdf", 1, ["d.pdf"], true⟩)
    ⟨"X-Ray", 50⟩ [] []
    ⟨[("X-Ray", 50, false)], 0, [("X-Ray", false)], ["X-Ray"]⟩ "No"
    (by decide) (by decide) (by decide)
    (by simp [eligibilityLoop, eligibleOfAnswerField, getAnswerOrDefault, alistGet, alistSet]; decide)

/-! ## Identifier-resolver lemmas -/

lemma find?_map_singleton (f : String × String → Bool) (p c : String) :
    ((([(p, c)] : List (String × String)).find? f).map (·.2)) =
      if f (p, c) then some c else none := by
  cases h : f (p, c) <;> simp [List.find?, h]

lemma resolveIdentifier_singleton_eq (p c idf : String) :
    resolveIdentifier [(p, c)] idf =
      if (p = idf ∨ pyLower p = pyLower (pyStrip idf)) ∨
         (c = idf ∨ pyLower c = pyLower (pyStrip idf)) ∨
         (pyBasename p = idf ∨ pyLower (pyBasename p) = pyLower (pyStrip idf)) ∨
         (pySplitextRoot (pyBasename p) = idf ∨
           pyLower (pySplitextRoot (pyBasename p)) = pyLower (pyStrip idf))
      then some c else none := by
  simp only [resolveIdentifier, resolveByPath, resolveByCollection, resolveByBasename,
    resolveByStem, find?_map_singleton]
  by_cases h1 : p = idf ∨ pyLower p = pyLower (pyStrip idf) <;>
    by_cases h2 : c = idf ∨ pyLower c = pyLower (pyStrip idf) <;>
      by_cases h3 : pyBasename p = idf ∨ pyLower (pyBasename p) = pyLower (pyStrip idf) <;>
        by_cases h4 : pySplitextRoot (pyBasename p) = idf ∨
            pyLower (pySplitextRoot (pyBasename p)) = pyLower (pyStrip idf) <;>
          simp [h1, h2, h3, h4]

/-- C4 counterexample: for a document stored as `"pdfs/ A.pdf"` (basename
with a leading space), resolving the lowercased filename `" a.pdf"` matches
no rule — the case-insensitive arms compare against the *stripped* lowercased
identifier `"a.pdf"` — so resolution fails instead of yielding the
collection. -/
theorem lowercased_filename_resolution_gap :
    pyLower (pyBasename "pdfs/ A.pdf") = " a.pdf"
    ∧ resolveIdentifier [("pdfs/ A.pdf", "col1")] (pyLower (pyBasename "pdfs/ A.pdf")) = none := by
  constructor <;> rfl

/-- C4 amended: the resolver tries the four rules in the fixed order
path → collection name → basename → basename-without-extension, stopping at
the first match, and fails when none matches; for a document stored under a
full path, resolving the bare filename, the filename without extension and
the collection name always yield its collection, and resolving any
identifier whose stripped lowercased form equals the lowercased basename
(e.g. the lowercased filename, when the basename carries no edge whitespace)
also does; the spec's `Policy.pdf` examples all resolve and `nonexistent`
fails. -/
theorem identifier_resolver_rules :
    (∀ (kb : List (String × String)) (idf c : String),
        resolveByPath kb idf = some c → resolveIdentifier kb idf = some c)
    ∧ (∀ (kb : List (String × String)) (idf c : String),
        resolveByPath kb idf = none → resolveByCollection kb idf = some c →
        resolveIdentifier kb idf = some c)
    ∧ (∀ (kb : List (String × String)) (idf c : String),
        resolveByPath kb idf = none → resolveByCollection kb idf = none →
        resolveByBasename kb idf = some c → resolveIdentifier kb idf = some c)
    ∧ (∀ (kb : List (String × String)) (idf c : String),
        resolveByPath kb idf = none → resolveByCollection kb idf = none →
        resolveByBasename kb idf = none → resolveByStem kb idf = some c →
        resolveIdentifier kb idf = some c)
    ∧ (∀ (kb : List (String × String)) (idf : String),
        resolveByPath kb idf = none → resolveByCollection kb idf = none →
        resolveByBasename kb idf = none → resolveByStem kb idf = none →
        resolveIdentifier kb idf = none)
    ∧ (∀ p c : String, resolveIdentifier [(p, c)] (pyBasename p) = some c)
    ∧ (∀ p c idf : String, pyLower (pyStrip idf) = pyLower (pyBasename p) →
        resolveIdentifier [(p, c)] idf = some c)
    ∧ (∀ p c : String, resolveIdentifier [(p, c)] (pySplitextRoot (pyBasename p)) = some c)
    ∧ (∀ p c : String, resolveIdentifier [(p, c)] c = some c)
    ∧ resolveIdentifier [("pdfs/Policy.pdf", "doc_Policy_ab12cd34")] "Policy.pdf"
        = some "doc_Policy_ab12cd34"
    ∧ resolveIdentifier [("pdfs/Policy.pdf", "doc_Policy_ab12cd34")] "policy.pdf"
        = some "doc_Policy_ab12cd34"
    ∧ resolveIdentifier [("pdfs/Policy.pdf", "doc_Policy_ab12cd34")] "Policy"
        = some "doc_Policy_ab12cd34"
    ∧ resolveIdentifier [("pdfs/Policy.pdf", "doc_Policy_ab12cd34")] "doc_Policy_ab12cd34"
        = some "doc_Policy_ab12cd34"
    ∧ resolveIdentifier [("pdfs/Policy.pdf", "doc_Policy_ab12cd34")] "nonexistent" = none := by
  refine ⟨?_, ?_, ?_, ?_, ?_, ?_, ?_, ?_, ?_, by rfl, by rfl, by rfl, by rfl, by rfl⟩
  · intro kb idf c h; simp [resolveIdentifier, h]
  · intro kb idf c h1 h2; simp [resolveIdentifier, h1, h2]
  · intro kb idf c h1 h2 h3; simp [resolveIdentifier, h1, h2, h3]
  · intro kb idf c h1 h2 h3 h4; simp [resolveIdentifier, h1, h2, h3, h4]
  · intro kb idf h1 h2 h3 h4; simp [resolveIdentifier, h1, h2, h3, h4]
  · intro p c
    rw [resolveIdentifier_singleton_eq]
    simp
  · intro p c idf h
    rw [resolveIdentifier_singleton_eq]
    rw [if_pos (Or.inr (Or.inr (Or.inl (Or.inr h.symm))))]
  · intro p c
    rw [resolveIdentifier_singleton_eq]
    simp
  · intro p c
    rw [resolveIdentifier_singleton_eq]
    simp

/-- C4 witness: the case-insensitive basename rule applied to
`"POLICY.PDF"`. -/
theorem identifier_resolver_rules_witness :
    resolveIdentifier [("pdfs/Policy.pdf", "doc_Policy_ab12cd34")] "POLICY.PDF"
      = some "doc_Policy_ab12cd34" :=
  identifier_resolver_rules.2.2.2.2.2.2.1 "pdfs/Policy.pdf" "doc_Policy_ab12cd34"
    "POLICY.PDF" (by rfl)

/-! ## Collection-name derivation lemmas -/

lemma replaceDoubleUnder_length_le (s : List Char) :
    (replaceDoubleUnder s).length ≤ s.length := by
  induction s using replaceDoubleUnder.induct with
  | case1 rest ih => simp [replaceDoubleUnder]; omega
  | case2 c rest _ ih => simpa [replaceDoubleUnder] using ih
  | case3 => simp [replaceDoubleUnder]

lemma collapseUnderLoop_length_le (fuel : Nat) :
    ∀ s : List Char, (collapseUnderLoop fuel s).length ≤ s.length := by
  induction fuel with
  | zero => intro s; simp [collapseUnderLoop]
  | succ n ih =>
    intro s
    unfold collapseUnderLoop
    split
    · exact (ih (replaceDoubleUnder s)).trans (replaceDoubleUnder_length_le s)
    · exact le_refl _

lemma dropWhile_length_le (p : Char → Bool) (l : List Char) :
    (l.dropWhile p).length ≤ l.length :=
  (List.dropWhile_sublist p).length_le

lemma pyStripUnderL_length_le (s : List Char) : (pyStripUnderL s).length ≤ s.length := by
  unfold pyStripUnderL
  calc ((s.dropWhile (· = '_')).reverse.dropWhile (· = '_')).reverse.length
      = ((s.dropWhile (· = '_')).reverse.dropWhile (· = '_')).length := by
        rw [List.length_reverse]
    _ ≤ (s.dropWhile (· = '_')).reverse.length := dropWhile_length_le _ _
    _ = (s.dropWhile (· = '_')).length := by rw [List.length_reverse]
    _ ≤ s.length := dropWhile_length_le _ _

lemma sanitizedBase_length_le (pre filename : String) (hp : pre.data.length = 3) :
    (sanitizedBase pre filename).length ≤ 20 := by
  unfold sanitizedBase
  dsimp only
  have h4 : (collapseUnderLoop
      ((pyStripUnderL ((List.take 20 (pySplitextRootL filename.data)).map
          (fun c => if c.isAlphanum then c else '_'))).length + 1)
      (pyStripUnderL ((List.take 20 (pySplitextRootL filename.data)).map
          (fun c => if c.isAlphanum then c else '_')))).length ≤ 20 := by
    refine ((collapseUnderLoop_length_le _ _).trans ((pyStripUnderL_length_le _).trans ?_))
    rw [List.length_map]
    exact List.length_take_le 20 _
  split
  · rename_i hlt
    simp only [List.length_append, List.length_cons, hp]
    omega
  · exact h4

lemma create_valid_collection_name_length (h : String → String) (pre filename : String)
    (hp : pre.data.length = 3) (hh : (h filename).data.length = 8) :
    (create_valid_collection_name h pre filename).data.length ≤ 63 := by
  unfold create_valid_collection_name
  have hb := sanitizedBase_length_le pre filename hp
  rw [if_neg]
  · simp only [List.length_append, List.length_cons, hp, hh]
    omega
  · simp only [List.length_append, List.length_cons, hp, hh]
    omega

lemma create_valid_collection_name_suffix (h : String → String) (pre filename : String) :
    List.IsSuffix ('_' :: (h filename).data)
      (create_valid_collection_name h pre filename).data := by
  unfold create_valid_collection_name
  dsimp only
  split
  · exact ⟨_, rfl⟩
  · exact ⟨pre.data ++ '_' :: sanitizedBase pre filename, by simp⟩

/-- C5: collection-name derivation is a pure function of the filename that
always produces a name of at most 63 characters (with an 8-character hash the
pre-truncation name is at most 33 characters, so the final truncation branch
never fires), always ends in `_` followed by the hash of the original full
filename, and is injective whenever the hash suffixes differ — in particular
for distinct filenames whose processed base names coincide after truncation;
`"Policy.pdf"` derives `doc_Policy_ab12cd34` under the hash `ab12cd34`. -/
theorem collection_name_derivation :
    (∀ (h : String → String) (f : String),
        create_valid_collection_name_doc h f = create_valid_collection_name_doc h f)
    ∧ (∀ (h : String → String) (f : String), (h f).data.length = 8 →
        (create_valid_collection_name_doc h f).data.length ≤ 63
        ∧ (create_valid_collection_name_pdf h f).data.length ≤ 63)
    ∧ (∀ (h : String → String) (pre f : String),
        List.IsSuffix ('_' :: (h f).data) (create_valid_collection_name h pre f).data)
    ∧ (∀ (h : String → String) (pre f1 f2 : String),
        (h f1).data.length = 8 → (h f2).data.length = 8 → h f1 ≠ h f2 →
        create_valid_collection_name h pre f1 ≠ create_valid_collection_name h pre f2)
    ∧ create_valid_collection_name_doc (fun _ => "ab12cd34") "Policy.pdf"
        = "doc_Policy_ab12cd34" := by
  refine ⟨fun _ _ => rfl, ?_, create_valid_collection_name_suffix, ?_, by rfl⟩
  · intro h f hh
    exact ⟨create_valid_collection_name_length h "doc" f rfl hh,
      create_valid_collection_name_length h "pdf" f rfl hh⟩
  · intro h pre f1 f2 h1 h2 hne heq
    obtain ⟨l1, hl1⟩ := create_valid_collection_name_suffix h pre f1
    obtain ⟨l2, hl2⟩ := create_valid_collection_name_suffix h pre f2
    have hdata : (create_valid_collection_name h pre f1).data
        = (create_valid_collection_name h pre f2).data := by rw [heq]
    rw [← hl1, ← hl2] at hdata
    have hlen : l1.length = l2.length := by
      have := congrArg List.length hdata
      simp only [List.length_append, List.length_cons, h1, h2] at this
      omega
    obtain ⟨-, htail⟩ := List.append_inj hdata hlen
    exact hne (by injection htail with _ htl; exact String.ext htl)

/-- C5 witness: the length bound instantiated at `"Policy.pdf"`. -/
theorem collection_name_derivation_witness :
    (create_valid_collection_name_doc (fun _ => "ab12cd34") "Policy.pdf").data.length ≤ 63 :=
  (collection_name_derivation.2.1 (fun _ => "ab12cd34") "Policy.pdf" rfl).1

/-- C7: the evaluation answer-relevance metric is the word-set Jaccard
similarity of the lowercased expected and actual answers — `1.0` when both
word sets are empty, `0.0` when exactly one is, intersection over union
otherwise; `"a b c"` vs `"b c d"` scores `1/2`, `""` vs `""` scores `1`, and
`"a"` vs `""` scores `0`. -/
theorem answer_relevance_jaccard :
    (∀ e a : String, (calculate_search_metrics e a).answer_relevance
        = calculate_text_similarity (pyLower e) (pyLower a))
    ∧ (∀ t1 t2 : String, (pySplit t1).toFinset = ∅ → (pySplit t2).toFinset = ∅ →
        calculate_text_similarity t1 t2 = 1)
    ∧ (∀ t1 t2 : String,
        ((pySplit t1).toFinset = ∅ ↔ ¬ (pySplit t2).toFinset = ∅) →
        calculate_text_similarity t1 t2 = 0)
    ∧ (∀ t1 t2 : String, (pySplit t1).toFinset ≠ ∅ → (pySplit t2).toFinset ≠ ∅ →
        calculate_text_similarity t1 t2 =
          ((pySplit t1).toFinset ∩ (pySplit t2).toFinset).card /
            (((pySplit t1).toFinset ∪ (pySplit t2).toFinset).card : ℚ))
    ∧ (calculate_search_metrics "a b c" "b c d").answer_relevance = 1/2
    ∧ (calculate_search_metrics "" "").answer_relevance = 1
    ∧ (calculate_search_metrics "a" "").answer_relevance = 0 := by
  refine ⟨fun e a => rfl, ?_, ?_, ?_, ?_, by rfl, ?_⟩
  · intro t1 t2 h1 h2
    simp [calculate_text_similarity, h1, h2]
  · intro t1 t2 h
    by_cases h1 : (pySplit t1).toFinset = ∅
    · have h2 := h.mp h1
      simp [calculate_text_similarity, h1, h2]
    · have h2 := not_not.mp (fun hn2 => h1 (h.mpr hn2))
      simp [calculate_text_similarity, h1, h2]
  · intro t1 t2 h1 h2
    simp [calculate_text_similarity, h1, h2]
  · show calculate_text_similarity "a b c" "b c d" = 1/2
    rw [calculate_text_similarity]
    rw [if_neg (by decide), if_neg (by decide)]
    have hint : ((pySplit "a b c").toFinset ∩ (pySplit "b c d").toFinset).card = 2 := by decide
    have huni : ((pySplit "a b c").toFinset ∪ (pySplit "b c d").toFinset).card = 4 := by decide
    rw [hint, huni]
    norm_num
  · rfl

/-- C7 witness: the both-empty case on whitespace-only inputs. -/
theorem answer_relevance_jaccard_witness :
    calculate_text_similarity "" " " = 1 :=
  answer_relevance_jaccard.2.1 "" " " (by decide) (by decide)

/-- C9 counterexample: on a collection whose best chunk has distance `0.9`,
the single-document `search_pdf` returns the fixed confidence `0.8`, while
the multi-document aggregator's clamp formula yields `0.1` on the same
candidate — the two paths do not produce confidence the same way. -/
theorem single_doc_confidence_fixed :
    (search_pdf (fun _ => "LLM") [("pdfs/a.pdf", "col1")]
        (fun _ => [("chunk", some ((9 : ℚ)/10))]) "col1" "q").map SingleResult.confidence
      = some (4/5)
    ∧ (searchMultiplePdfsCore (fun _ => "LLM") "q"
        [⟨"pdfs/a.pdf", "chunk", some ((9 : ℚ)/10)⟩] 1).confidence = 1/10
    ∧ ((4 : ℚ)/5 ≠ 1/10) := by
  refine ⟨by rfl, ?_, by norm_num⟩
  rw [searchMultiplePdfsCore]
  rw [if_neg (by simp)]
  simp only [List.map_cons, List.map_nil]
  rw [if_pos (by simp [anyDefined])]
  have : minDefined [some ((9 : ℚ)/10)] = some (9/10) := by
    simp [minDefined]
  rw [this]
  norm_num

/-- C9 amended: single-document search resolves exactly one collection and
queries only it; an empty chunk list yields the same "no relevant
information" zero-confidence shape scoped to that document (source is its
collection name, Completion Service not invoked); but when chunks are
returned the confidence is the fixed constant `0.8`, not the
distance-clamp formula of the multi-document aggregator. -/
theorem single_doc_search_shape :
    (∀ (llm : String → String) (kb : List (String × String))
          (vect : String → List (String × Option ℚ)) (idf query : String),
        resolveIdentifier kb idf = none → search_pdf llm kb vect idf query = none)
    ∧ (∀ (llm : String → String) (kb : List (String × String))
          (vect : String → List (String × Option ℚ)) (idf query c : String),
        resolveIdentifier kb idf = some c → (vect c).map (·.1) = [] →
        search_pdf llm kb vect idf query =
          some { answer := "I couldn't find any relevant information in the document."
                 source := c, confidence := 0, llmCalled := false })
    ∧ (∀ (llm : String → String) (kb : List (String × String))
          (vect : String → List (String × Option ℚ)) (idf query c : String),
        resolveIdentifier kb idf = some c → (vect c).map (·.1) ≠ [] →
        ∃ r, search_pdf llm kb vect idf query = some r ∧
          r.confidence = 4/5 ∧ r.source = c ∧ r.llmCalled = true) := by
  refine ⟨?_, ?_, ?_⟩
  · intro llm kb vect idf query h
    simp [search_pdf, h]
  · intro llm kb vect idf query c h hempty
    simp [search_pdf, h, hempty]
  · intro llm kb vect idf query c h hne
    simp only [search_pdf, h]
    rw [if_neg hne]
    exact ⟨_, rfl, rfl, rfl, rfl⟩

/-- C9 witness: the empty-chunk conjunct on a concrete collection. -/
theorem single_doc_search_shape_witness :
    search_pdf (fun _ => "LLM") [("pdfs/a.pdf", "col1")] (fun _ => []) "col1" "q" =
      some { answer := "I couldn't find any relevant information in the document."
             source := "col1", confidence := 0, llmCalled := false } :=
  single_doc_search_shape.2.1 (fun _ => "LLM") [("pdfs/a.pdf", "col1")] (fun _ => [])
    "col1" "q" "col1" (by rfl) (by rfl)

/-! ## Index lifecycle and its invariant -/

/-- The claimed invariant: the `documents` and `collections` maps are mutually
consistent (every record's collection points back to its name, every reverse
entry is witnessed by a record). -/
def IndexConsistent (idx : KBIndex) : Prop :=
  (∀ n r, alistGet idx.documents n = some r →
    alistGet idx.collections r.collection_name = some n)
  ∧ (∀ c n, alistGet idx.collections c = some n →
      ∃ r, alistGet idx.documents n = some r ∧ r.collection_name = c)

/-- Strengthened invariant carried through the lifecycle proofs: consistency
plus the fact that every stored record's collection name is the one derived
from its document name. -/
def IndexDerived (h : String → String) (idx : KBIndex) : Prop :=
  IndexConsistent idx
  ∧ ∀ n r, alistGet idx.documents n = some r → r.collection_name = collectionFor h n

lemma alistGet_del (m : List (String × α)) (k q : String) :
    alistGet (alistDel m k) q = if q = k then none else alistGet m q := by
  induction m with
  | nil => simp [alistDel, alistGet]
  | cons e rest ih =>
    simp only [alistDel, List.filter_cons] at ih ⊢
    by_cases hek : e.1 = k <;> by_cases heq : e.1 = q <;> by_cases hqk : q = k <;>
      simp_all [alistGet]

lemma insert_preserves (h : String → String) (idx : KBIndex) (n : String) (r : DocInfo)
    (hrc : r.collection_name = collectionFor h n)
    (hinv : IndexDerived h idx)
    (hfresh : alistGet idx.collections (collectionFor h n) = none ∨
              alistGet idx.collections (collectionFor h n) = some n) :
    IndexDerived h ⟨alistSet idx.documents n r,
                    alistSet idx.collections (collectionFor h n) n⟩ := by
  obtain ⟨⟨hfwd, hbwd⟩, hder⟩ := hinv
  refine ⟨⟨?_, ?_⟩, ?_⟩
  · intro m r' hm
    rw [alistGet_set] at hm
    simp only
    rw [alistGet_set]
    by_cases hnm : n = m
    · rw [if_pos hnm] at hm
      cases hm
      rw [if_pos (by rw [hrc])]
      rw [hnm]
    · rw [if_neg hnm] at hm
      have hcols := hfwd m r' hm
      have hrc' := hder m r' hm
      rw [if_neg ?_]
      · exact hcols
      · intro hcc
        rw [← hcc] at hcols
        rcases hfresh with hf | hf
        · rw [hf] at hcols; exact Option.noConfusion hcols
        · rw [hf] at hcols
          exact hnm (Option.some.inj hcols)
  · intro c' m hm
    simp only at hm ⊢
    rw [alistGet_set] at hm
    by_cases hcc : collectionFor h n = c'
    · rw [if_pos hcc] at hm
      injection hm with hm
      refine ⟨r, ?_, by rw [hrc, hcc]⟩
      rw [alistGet_set, if_pos hm]
    · rw [if_neg hcc] at hm
      obtain ⟨r'', hr'', hr''c⟩ := hbwd c' m hm
      have hmn : ¬ n = m := by
        intro hnm
        apply hcc
        rw [← hr''c, hder m r'' hr'', ← hnm]
      refine ⟨r'', ?_, hr''c⟩
      rw [alistGet_set, if_neg hmn]
      exact hr''
  · intro m r' hm
    simp only at hm
    rw [alistGet_set] at hm
    by_cases hnm : n = m
    · rw [if_pos hnm] at hm
      cases hm
      rw [hrc, hnm]
    · rw [if_neg hnm] at hm
      exact hder m r' hm

lemma index_document_preserves (env : FSEnv) (h : String → String) (idx : KBIndex)
    (n : String) (hinv : IndexDerived h idx)
    (hfresh : alistGet idx.collections (collectionFor h n) = none ∨
              alistGet idx.collections (collectionFor h n) = some n) :
    IndexDerived h (index_document env h idx n).1 := by
  unfold index_document
  split
  · exact hinv
  split
  · exact hinv
  dsimp only
  split
  · exact hinv
  exact insert_preserves h idx n _ rfl hinv hfresh

lemma remove_document_preserves (h : String → String) (idx : KBIndex) (n : String)
    (hinv : IndexDerived h idx) :
    IndexDerived h (remove_document idx n).1 := by
  obtain ⟨⟨hfwd, hbwd⟩, hder⟩ := hinv
  unfold remove_document
  cases hn : alistGet idx.documents n with
  | none => exact ⟨⟨hfwd, hbwd⟩, hder⟩
  | some info =>
    refine ⟨⟨?_, ?_⟩, ?_⟩
    · intro m r' hm
      simp only at hm ⊢
      rw [alistGet_del] at hm
      by_cases hmn : m = n
      · rw [if_pos hmn] at hm; exact Option.noConfusion hm
      · rw [if_neg hmn] at hm
        have hcols := hfwd m r' hm
        rw [alistGet_del, if_neg ?_]
        · exact hcols
        · intro hcc
          rw [hcc] at hcols
          have := hfwd n info hn
          rw [this] at hcols
          exact hmn (Option.some.inj hcols).symm
    · intro c' m hm
      simp only at hm ⊢
      rw [alistGet_del] at hm
      by_cases hcc : c' = info.collection_name
      · rw [if_pos hcc] at hm; exact Option.noConfusion hm
      · rw [if_neg hcc] at hm
        obtain ⟨r'', hr'', hr''c⟩ := hbwd c' m hm
        have hmn : ¬ m = n := by
          intro hmn
          rw [hmn, hn] at hr''
          cases hr''
          exact hcc hr''c.symm
        refine ⟨r'', ?_, hr''c⟩
        rw [alistGet_del, if_neg hmn]
        exact hr''
    · intro m r' hm
      simp only at hm
      rw [alistGet_del] at hm
      by_cases hmn : m = n
      · rw [if_pos hmn] at hm; exact Option.noConfusion hm
      · rw [if_neg hmn] at hm
        exact hder m r' hm

lemma index_document_domain (env : FSEnv) (h : String → String) (idx : KBIndex)
    (n f : String) :
    (alistGet (index_document env h idx n).1.documents f).isSome →
    f = n ∨ (alistGet idx.documents f).isSome := by
  unfold index_document
  split
  · exact fun hf => Or.inr hf
  split
  · exact fun hf => Or.inr hf
  dsimp only
  split
  · exact fun hf => Or.inr hf
  intro hf
  simp only [alistGet_set] at hf
  by_cases hnf : n = f
  · exact Or.inl hnf.symm
  · rw [if_neg hnf] at hf
    exact Or.inr hf

lemma indexAllLoop_preserves (env : FSEnv) (h : String → String) :
    ∀ (fs : List String) (idx : KBIndex), IndexDerived h idx →
      (∀ f1 f2 : String,
        (f1 ∈ fs ∨ (alistGet idx.documents f1).isSome) →
        (f2 ∈ fs ∨ (alistGet idx.documents f2).isSome) →
        collectionFor h f1 = collectionFor h f2 → f1 = f2) →
      IndexDerived h (indexAllLoop env h idx fs).1 := by
  intro fs
  induction fs with
  | nil => intro idx hinv _; exact hinv
  | cons f rest ih =>
    intro idx hinv hinj
    unfold indexAllLoop
    split
    · exact ih idx hinv fun f1 f2 h1 h2 =>
        hinj f1 f2 (h1.imp_left (List.mem_cons_of_mem f)) (h2.imp_left (List.mem_cons_of_mem f))
    · have hfresh : alistGet idx.collections (collectionFor h f) = none ∨
          alistGet idx.collections (collectionFor h f) = some f := by
        cases hc : alistGet idx.collections (collectionFor h f) with
        | none => exact Or.inl rfl
        | some m =>
          obtain ⟨r, hr, hrc⟩ := hinv.1.2 _ m hc
          have : collectionFor h m = collectionFor h f := by
            rw [← hrc, hinv.2 m r hr]
          have hmf : m = f :=
            hinj m f (Or.inr (by rw [hr]; rfl)) (Or.inl (List.mem_cons_self f rest)) this
          exact Or.inr (by rw [hmf])
      have hstep := index_document_preserves env h idx f hinv hfresh
      refine ih (index_document env h idx f).1 hstep ?_
      intro f1 f2 h1 h2 hc
      refine hinj f1 f2 ?_ ?_ hc
      · rcases h1 with h1 | h1
        · exact Or.inl (List.mem_cons_of_mem f h1)
        · rcases index_document_domain env h idx f f1 h1 with hh | hh
          · exact Or.inl (hh ▸ List.mem_cons_self f rest)
          · exact Or.inr hh
      · rcases h2 with h2 | h2
        · exact Or.inl (List.mem_cons_of_mem f h2)
        · rcases index_document_domain env h idx f f2 h2 with hh | hh
          · exact Or.inl (hh ▸ List.mem_cons_self f rest)
          · exact Or.inr hh

lemma emptyIndex_derived (h : String → String) : IndexDerived h emptyIndex :=
  ⟨⟨fun _ _ hx => Option.noConfusion hx, fun _ _ hx => Option.noConfusion hx⟩,
   fun _ _ hx => Option.noConfusion hx⟩

/-- C6: the consistency invariant — unique collection names across records
and a mutually consistent reverse map — is preserved by `index_document`
(when the derived collection is fresh or already owned by the same name,
which the hash-uniqueness assumption of the derivation guarantees), by
`remove_document` unconditionally, and by `rebuild_index` whenever the
name-derivation is injective on the directory listing; and the strengthened
invariant entails the claim's statement: consistency plus uniqueness of
collection names across document records. -/
theorem index_invariant_preserved :
    (∀ (env : FSEnv) (h : String → String) (idx : KBIndex) (n : String),
        IndexDerived h idx →
        (alistGet idx.collections (collectionFor h n) = none ∨
         alistGet idx.collections (collectionFor h n) = some n) →
        IndexDerived h (index_document env h idx n).1)
    ∧ (∀ (h : String → String) (idx : KBIndex) (n : String),
        IndexDerived h idx → IndexDerived h (remove_document idx n).1)
    ∧ (∀ (env : FSEnv) (h : String → String) (idx : KBIndex),
        (∀ f1 ∈ get_document_files env, ∀ f2 ∈ get_document_files env,
          collectionFor h f1 = collectionFor h f2 → f1 = f2) →
        IndexDerived h (rebuild_index env h idx).1)
    ∧ (∀ (h : String → String) (idx : KBIndex), IndexDerived h idx →
        IndexConsistent idx ∧
        ∀ n1 n2 r1 r2, alistGet idx.documents n1 = some r1 →
          alistGet idx.documents n2 = some r2 →
          r1.collection_name = r2.collection_name → n1 = n2) := by
  refine ⟨index_document_preserves, remove_document_preserves, ?_, ?_⟩
  · intro env h idx hinj
    unfold rebuild_index index_all_documents
    refine indexAllLoop_preserves env h (get_document_files env) emptyIndex
      (emptyIndex_derived h) ?_
    intro f1 f2 h1 h2 hc
    rcases h1 with h1 | h1
    · rcases h2 with h2 | h2
      · exact hinj f1 h1 f2 h2 hc
      · exact absurd h2 (by simp [emptyIndex, alistGet])
    · exact absurd h1 (by simp [emptyIndex, alistGet])
  · intro h idx hinv
    refine ⟨hinv.1, ?_⟩
    intro n1 n2 r1 r2 h1 h2 hc
    have e1 := hinv.1.1 n1 r1 h1
    have e2 := hinv.1.1 n2 r2 h2
    rw [hc] at e1
    rw [e2] at e1
    exact (Option.some.inj e1).symm

/-- C6 witness: indexing one file into the empty index yields a consistent
reverse entry. -/
theorem index_invariant_preserved_witness :
    alistGet (index_document ⟨"pdfs", ["a.txt"], fun _ => 50, fun _ => "123.0", fun _ => "hello"⟩
        (fun _ => "deadbeef") emptyIndex "a.txt").1.collections "doc_doc_a_deadbeef"
      = some "a.txt" :=
  (index_invariant_preserved.1 ⟨"pdfs", ["a.txt"], fun _ => 50, fun _ => "123.0", fun _ => "hello"⟩
      (fun _ => "deadbeef") emptyIndex "a.txt" (emptyIndex_derived _) (Or.inl rfl)).1.1
    "a.txt"
    { collection_name := "doc_doc_a_deadbeef", file_path := "pdfs/a.txt",
      indexed_at := "123.0", file_type := "txt", file_name := "a.txt",
      file_size := 50, text_length := 5, chunking_method := "simple_text_splitting" }
    (by decide)

/-! ## Lexicographic order, timestamp encoding and history lemmas -/

lemma lexLt_irrefl : ∀ l : List Char, lexLt l l = false := by
  intro l
  induction l with
  | nil => rfl
  | cons c rest ih => simp [lexLt, ih]

lemma lexLt_asymm : ∀ a b : List Char, lexLt a b = true → lexLt b a = false := by
  intro a
  induction a with
  | nil => intro b h; cases b <;> simp [lexLt] at h ⊢
  | cons c rest ih =>
    intro b h
    cases b with
    | nil => simp [lexLt] at h
    | cons d bs =>
      simp only [lexLt] at h ⊢
      by_cases hcd : c.toNat < d.toNat
      · rw [if_neg (by omega), if_pos hcd]
      · by_cases hdc : d.toNat < c.toNat
        · rw [if_neg hcd, if_pos hdc] at h
          exact absurd h (by simp)
        · rw [if_neg hcd, if_neg hdc] at h
          rw [if_neg hdc, if_neg hcd]
          exact ih bs h

lemma lexLt_append_left : ∀ (l r1 r2 : List Char), lexLt (l ++ r1) (l ++ r2) = lexLt r1 r2 := by
  intro l
  induction l with
  | nil => intro r1 r2; rfl
  | cons c rest ih =>
    intro r1 r2
    simp only [List.cons_append, lexLt]
    rw [if_neg (by omega), if_neg (by omega)]
    exact ih r1 r2

lemma lexLt_append_of_lt : ∀ (x y r1 r2 : List Char), x.length = y.length →
    lexLt x y = true → lexLt (x ++ r1) (y ++ r2) = true := by
  intro x
  induction x with
  | nil =>
    intro y r1 r2 hlen h
    cases y with
    | nil => simp [lexLt] at h
    | cons d bs => simp at hlen
  | cons c rest ih =>
    intro y r1 r2 hlen h
    cases y with
    | nil => simp at hlen
    | cons d bs =>
      simp only [List.cons_append, lexLt] at h ⊢
      by_cases hcd : c.toNat < d.toNat
      · rw [if_pos hcd]
      · by_cases hdc : d.toNat < c.toNat
        · rw [if_neg hcd, if_pos hdc] at h
          exact absurd h (by simp)
        · rw [if_neg hcd, if_neg hdc] at h ⊢
          exact ih bs r1 r2 (by simpa using hlen) h

lemma lexLt_append_right_eqlen : ∀ (x y r : List Char), x.length = y.length →
    lexLt (x ++ r) (y ++ r) = lexLt x y := by
  intro x
  induction x with
  | nil =>
    intro y r hlen
    cases y with
    | nil => simp [lexLt_irrefl, lexLt]
    | cons d bs => simp at hlen
  | cons c rest ih =>
    intro y r hlen
    cases y with
    | nil => simp at hlen
    | cons d bs =>
      simp only [List.cons_append, lexLt]
      by_cases hcd : c.toNat < d.toNat
      · rw [if_pos hcd, if_pos hcd]
      · by_cases hdc : d.toNat < c.toNat
        · rw [if_neg hcd, if_neg hcd, if_pos hdc, if_pos hdc]
        · rw [if_neg hcd, if_neg hcd, if_neg hdc, if_neg hdc]
          exact ih bs r (by simpa using hlen)

lemma padC_length : ∀ (w n : Nat), (padC w n).length = w := by
  intro w
  induction w with
  | zero => intro n; rfl
  | succ k ih => intro n; simp [padC, ih]

lemma digitChar_lt_of_lt : ∀ a b : Fin 10, a.val < b.val →
    (Nat.digitChar a.val).toNat < (Nat.digitChar b.val).toNat := by
  decide

lemma padC_lt : ∀ (w n1 n2 : Nat), n1 < n2 → n2 < 10 ^ w →
    lexLt (padC w n1) (padC w n2) = true := by
  intro w
  induction w with
  | zero => intro n1 n2 h12 h2; omega
  | succ k ih =>
    intro n1 n2 h12 h2
    simp only [padC, lexLt]
    have hd2 : n2 / 10 ^ k < 10 := by
      apply Nat.div_lt_of_lt_mul
      rw [← pow_succ]
      exact h2
    have hdle : n1 / 10 ^ k ≤ n2 / 10 ^ k := Nat.div_le_div_right (le_of_lt h12)
    by_cases hd : n1 / 10 ^ k < n2 / 10 ^ k
    · rw [if_pos]
      exact digitChar_lt_of_lt ⟨n1 / 10 ^ k, by omega⟩ ⟨n2 / 10 ^ k, by omega⟩ hd
    · have hdeq : n1 / 10 ^ k = n2 / 10 ^ k := le_antisymm hdle (le_of_not_lt hd)
      rw [hdeq]
      rw [if_neg (by omega), if_neg (by omega)]
      refine ih (n1 % 10 ^ k) (n2 % 10 ^ k) ?_ (Nat.mod_lt _ (by positivity))
      have e1 := Nat.div_add_mod n1 (10 ^ k)
      have e2 := Nat.div_add_mod n2 (10 ^ k)
      rw [hdeq] at e1
      omega

lemma lexLt_cons_same (c : Char) (x y : List Char) : lexLt (c :: x) (c :: y) = lexLt x y := by
  simp [lexLt]

lemma encodeTs_lt (a b : Ts) (ha : a.Valid) (hb : b.Valid) (h : tsLt a b = true) :
    lexLt (encodeTs a) (encodeTs b) = true := by
  obtain ⟨hay, ham, had, hah, hami, has⟩ := ha
  obtain ⟨hby, hbm, hbd, hbh, hbmi, hbs⟩ := hb
  unfold tsLt at h
  unfold encodeTs
  simp only [List.append_assoc]
  by_cases h1 : a.year ≠ b.year
  · rw [if_pos h1] at h
    exact lexLt_append_of_lt _ _ _ _ (by rw [padC_length, padC_length])
      (padC_lt 4 _ _ (by simpa using h) hby)
  · push_neg at h1
    rw [if_neg (by simp [h1])] at h
    rw [h1, lexLt_append_left]
    by_cases h2 : a.month ≠ b.month
    · rw [if_pos h2] at h
      exact lexLt_append_of_lt _ _ _ _ (by rw [padC_length, padC_length])
        (padC_lt 2 _ _ (by simpa using h) hbm)
    · push_neg at h2
      rw [if_neg (by simp [h2])] at h
      rw [h2, lexLt_append_left]
      by_cases h3 : a.day ≠ b.day
      · rw [if_pos h3] at h
        exact lexLt_append_of_lt _ _ _ _ (by rw [padC_length, padC_length])
          (padC_lt 2 _ _ (by simpa using h) hbd)
      · push_neg at h3
        rw [if_neg (by simp [h3])] at h
        rw [h3, lexLt_append_left, lexLt_cons_same]
        by_cases h4 : a.hour ≠ b.hour
        · rw [if_pos h4] at h
          exact lexLt_append_of_lt _ _ _ _ (by rw [padC_length, padC_length])
            (padC_lt 2 _ _ (by simpa using h) hbh)
        · push_neg at h4
          rw [if_neg (by simp [h4])] at h
          rw [h4, lexLt_append_left]
          by_cases h5 : a.minute ≠ b.minute
          · rw [if_pos h5] at h
            exact lexLt_append_of_lt _ _ _ _ (by rw [padC_length, padC_length])
              (padC_lt 2 _ _ (by simpa using h) hbmi)
          · push_neg at h5
            rw [if_neg (by simp [h5])] at h
            rw [h5, lexLt_append_left]
            exact padC_lt 2 _ _ (by simpa using h) hbs

lemma encodeTs_length (t : Ts) : (encodeTs t).length = 15 := by
  simp [encodeTs, padC_length]

lemma tsLt_trichotomy : ∀ a b : Ts, tsLt a b = true ∨ a = b ∨ tsLt b a = true := by
  rintro ⟨ay, am, ad, ah, ami, asec⟩ ⟨y2, m2, d2, h2, mi2, s2⟩
  simp only [tsLt]
  by_cases e1 : ay = y2
  · subst e1
    simp only [ne_eq, not_true_eq_false, if_neg, reduceIte]
    by_cases e2 : am = m2
    · subst e2
      simp only [ne_eq, not_true_eq_false, reduceIte]
      by_cases e3 : ad = d2
      · subst e3
        simp only [ne_eq, not_true_eq_false, reduceIte]
        by_cases e4 : ah = h2
        · subst e4
          simp only [ne_eq, not_true_eq_false, reduceIte]
          by_cases e5 : ami = mi2
          · subst e5
            simp only [ne_eq, not_true_eq_false, reduceIte]
            rcases Nat.lt_trichotomy asec s2 with hh | hh | hh
            · left; simpa using hh
            · right; left; rw [hh]
            · right; right; simpa using hh
          · rcases Nat.lt_trichotomy ami mi2 with hh | hh | hh
            · left; rw [if_pos e5]; simpa using hh
            · exact absurd hh e5
            · right; right
              rw [if_pos (fun hc => e5 hc.symm)]
              simpa using hh
        · rcases Nat.lt_trichotomy ah h2 with hh | hh | hh
          · left; rw [if_pos e4]; simpa using hh
          · exact absurd hh e4
          · right; right
            rw [if_pos (fun hc => e4 hc.symm)]
            simpa using hh
      · rcases Nat.lt_trichotomy ad d2 with hh | hh | hh
        · left; rw [if_pos e3]; simpa using hh
        · exact absurd hh e3
        · right; right
          rw [if_pos (fun hc => e3 hc.symm)]
          simpa using hh
    · rcases Nat.lt_trichotomy am m2 with hh | hh | hh
      · left; rw [if_pos e2]; simpa using hh
      · exact absurd hh e2
      · right; right
        rw [if_pos (fun hc => e2 hc.symm)]
        simpa using hh
  · rcases Nat.lt_trichotomy ay y2 with hh | hh | hh
    · left; rw [if_pos e1]; simpa using hh
    · exact absurd hh e1
    · right; right
      rw [if_pos (fun hc => e1 hc.symm)]
      simpa using hh

lemma fnameLt_eq_tsLt (a b : Ts) (ha : a.Valid) (hb : b.Valid) :
    pyStrLt (evalFilename a) (evalFilename b) = tsLt a b := by
  have hstrip : pyStrLt (evalFilename a) (evalFilename b)
      = lexLt (encodeTs a) (encodeTs b) := by
    unfold pyStrLt evalFilename
    simp only [List.append_assoc]
    rw [lexLt_append_left]
    exact lexLt_append_right_eqlen _ _ _ (by rw [encodeTs_length, encodeTs_length])
  rw [hstrip]
  cases hts : tsLt a b
  · rcases tsLt_trichotomy a b with h | h | h
    · rw [h] at hts; exact absurd hts (by simp)
    · rw [h, lexLt_irrefl]
    · exact lexLt_asymm _ _ (encodeTs_lt b a hb ha h)
  · exact encodeTs_lt a b ha hb hts

lemma insertDesc_mem (lt : α → α → Bool) (x : α) :
    ∀ (l : List α) (y : α), y ∈ insertDesc lt x l ↔ y = x ∨ y ∈ l := by
  intro l
  induction l with
  | nil => intro y; simp [insertDesc]
  | cons z zs ih =>
    intro y
    simp only [insertDesc]
    split
    · simp
    · rw [List.mem_cons, ih y, List.mem_cons]
      tauto

lemma sortDesc_mem (lt : α → α → Bool) :
    ∀ (l : List α) (y : α), y ∈ sortDesc lt l ↔ y ∈ l := by
  intro l
  induction l with
  | nil => intro y; simp [sortDesc]
  | cons z zs ih =>
    intro y
    simp only [sortDesc]
    rw [insertDesc_mem, ih y, List.mem_cons]

lemma insertDesc_map (φ : α → β) (lt1 : α → α → Bool) (lt2 : β → β → Bool) (x : α) :
    ∀ l : List α, (∀ a ∈ l, lt2 (φ a) (φ x) = lt1 a x) →
      insertDesc lt2 (φ x) (l.map φ) = (insertDesc lt1 x l).map φ := by
  intro l
  induction l with
  | nil => intro _; rfl
  | cons z zs ih =>
    intro hc
    simp only [List.map_cons, insertDesc]
    rw [hc z (List.mem_cons_self z zs)]
    split
    · rfl
    · rw [List.map_cons, ih (fun a ha => hc a (List.mem_cons_of_mem z ha))]

lemma sortDesc_map (φ : α → β) (lt1 : α → α → Bool) (lt2 : β → β → Bool) :
    ∀ l : List α, (∀ a b, a ∈ l → b ∈ l → lt2 (φ a) (φ b) = lt1 a b) →
      sortDesc lt2 (l.map φ) = (sortDesc lt1 l).map φ := by
  intro l
  induction l with
  | nil => intro _; rfl
  | cons z zs ih =>
    intro hc
    simp only [List.map_cons, sortDesc]
    rw [ih (fun a b ha hb => hc a b (List.mem_cons_of_mem z ha) (List.mem_cons_of_mem z hb))]
    exact insertDesc_map φ lt1 lt2 z (sortDesc lt1 zs)
      (fun a ha => hc a z (List.mem_cons_of_mem z ((sortDesc_mem lt1 zs a).mp ha))
        (List.mem_cons_self z zs))

lemma evalFilename_matches (t : Ts) : matchesEvalGlob (evalFilename t) = true := by
  unfold matchesEvalGlob evalFilename
  refine decide_eq_true_iff.mpr ⟨?_, ?_, ?_⟩
  · have : ("evaluation_results_".data ++ encodeTs t ++ ".json".data)
        = "evaluation_results_".data ++ (encodeTs t ++ ".json".data) := by
      rw [List.append_assoc]
    rw [show (String.mk ("evaluation_results_".data ++ encodeTs t ++ ".json".data)).data
        = "evaluation_results_".data ++ encodeTs t ++ ".json".data from rfl, this]
    exact List.isPrefixOf_iff_prefix.mpr ⟨_, rfl⟩
  · exact List.isSuffixOf_iff_suffix.mpr ⟨_, rfl⟩
  · show "evaluation_results_".length + ".json".length
        ≤ (String.mk ("evaluation_results_".data ++ encodeTs t ++ ".json".data)).length
    have : (String.mk ("evaluation_results_".data ++ encodeTs t ++ ".json".data)).length
        = "evaluation_results_".data.length + (encodeTs t).length + ".json".data.length := by
      show ("evaluation_results_".data ++ encodeTs t ++ ".json".data).length = _
      simp
      omega
    rw [this, encodeTs_length]
    decide

/-- C8: persisting an evaluation run under its generated
`evaluation_results_{timestamp}.json` name and reloading it by that name
returns the identical structure, and the evaluation history of a directory of
such artifacts is exactly the artifact names sorted most-recent-first by the
timestamp embedded in the filename (string-descending order coincides with
chronological order for the zero-padded `strftime` encoding). -/
theorem evaluation_roundtrip_and_history :
    (∀ (α : Type) (store : List (String × α)) (results : α) (t : Ts),
        load_evaluation_results (save_evaluation_results store results t).1
          (save_evaluation_results store results t).2 = some results)
    ∧ (∀ (α : Type) (contents : Ts → α) (l : List Ts), (∀ t ∈ l, t.Valid) →
        get_evaluation_history (l.map fun t => (evalFilename t, contents t))
          = (sortDesc tsLt l).map evalFilename) := by
  constructor
  · intro α store results t
    unfold load_evaluation_results save_evaluation_results
    rw [alistGet_set, if_pos rfl]
  · intro α contents l hval
    unfold get_evaluation_history
    have hkeys : (l.map fun t => (evalFilename t, contents t)).map (·.1)
        = l.map evalFilename := by
      rw [List.map_map]; rfl
    rw [hkeys]
    rw [List.filter_eq_self.mpr (fun f hf => by
      obtain ⟨t, _, rfl⟩ := List.mem_map.mp hf
      exact evalFilename_matches t)]
    exact sortDesc_map evalFilename tsLt pyStrLt l
      (fun a b ha hb => fnameLt_eq_tsLt a b (hval a ha) (hval b hb))

/-- C8 witness: the history of a two-run store equals the
timestamp-descending listing. -/
theorem evaluation_roundtrip_and_history_witness :
    get_evaluation_history
        [(evalFilename ⟨2024, 1, 1, 12, 0, 0⟩, 7), (evalFilename ⟨2025, 1, 1, 12, 0, 0⟩, 8)]
      = (sortDesc tsLt [⟨2024, 1, 1, 12, 0, 0⟩, ⟨2025, 1, 1, 12, 0, 0⟩]).map evalFilename :=
  evaluation_roundtrip_and_history.2 Nat
    (fun t => if t.year = 2024 then 7 else 8)
    [⟨2024, 1, 1, 12, 0, 0⟩, ⟨2025, 1, 1, 12, 0, 0⟩]
    (by decide)
